import Mathlib

/-!
Shallow embedding of `IGCIntervalChecker.py` (the IGC logging-interval
checker).  The Python module contains two copies of each function; the
script calls `main()` before the second copies are defined, so the first
copies (`parse_b_record_time`, `analyze_igc_file`, `analyze_directory`)
are the ones that execute and are what we embed here.

Modelling conventions:
* Python floats are modelled by `ℚ`.  Every numeric value reaching a
  comparison in this program is either an integer number of seconds, a
  half (`* 0.5`), or an exact small rational, so rational arithmetic is
  exact where the float arithmetic is.
* `statistics.stdev` returns the square root of the Bessel-corrected
  sample variance.  The square root of a rational is irrational in
  general, so the model carries the *square* of the reported standard
  deviation (`stddevSq`, the sample variance).  Since `x ↦ x ^ 2` is
  strictly monotone on nonnegatives, `stdev < 1.0` holds exactly when
  `stddevSq < 1`, and `stdev > 1.0` exactly when `stddevSq > 1`.
* A file is a list of lines, each a `List Char`; a file that could not
  be opened or read is `none` (the `except` branch of the Python code).
* Python's `int(s)` on the two-character slices of a B record is
  modelled by `pyInt2`, covering every two-character string `int`
  accepts: two ASCII digits, a sign followed by a digit, and a digit
  with leading or trailing whitespace.  (CPython additionally accepts
  non-ASCII Unicode decimal digits; their digit values are also 0–9, so
  every bound proved below is unaffected.)
-/

namespace IGC

/-- Whitespace characters removed by Python `str.strip` (ASCII range). -/
def isPySpace (c : Char) : Bool :=
  c == ' ' || c == '\t' || c == '\n' || c == '\x0d' || c == '\x0b' || c == '\x0c'

/-- Model of Python `line.strip()`. -/
def pyStrip (l : List Char) : List Char :=
  ((l.dropWhile isPySpace).reverse.dropWhile isPySpace).reverse

/-- ASCII decimal digit. -/
def isDigitChar (c : Char) : Bool :=
  48 ≤ c.toNat && c.toNat ≤ 57

/-- Numeric value of an ASCII digit character. -/
def digitVal (c : Char) : ℤ :=
  (c.toNat : ℤ) - 48

/-- Model of Python `int(s)` for a two-character string `s = ⟨a, b⟩`
(the slices `b_record[1:3]`, `[3:5]`, `[5:7]`): two digits, a sign and a
digit, or a digit padded by whitespace; everything else raises
`ValueError`, i.e. returns `none`. -/
def pyInt2 (a b : Char) : Option ℤ :=
  if isDigitChar a && isDigitChar b then some (10 * digitVal a + digitVal b)
  else if a == '-' && isDigitChar b then some (-(digitVal b))
  else if a == '+' && isDigitChar b then some (digitVal b)
  else if isPySpace a && isDigitChar b then some (digitVal b)
  else if isDigitChar a && isPySpace b then some (digitVal a)
  else none

/-- `parse_b_record_time` (first copy, lines 23–41): a record shorter
than 7 characters yields `None`; otherwise the hour, minute and second
are `int(b_record[1:3])`, `int(b_record[3:5])`, `int(b_record[5:7])`,
and a parse failure in any slice yields `None`.  No range check is
performed on the parsed values. -/
def parse_b_record_time (line : List Char) : Option (ℤ × ℤ × ℤ) :=
  match line with
  | _ :: c1 :: c2 :: c3 :: c4 :: c5 :: c6 :: _ =>
    match pyInt2 c1 c2, pyInt2 c3 c4, pyInt2 c5 c6 with
    | some hh, some mm, some ss => some (hh, mm, ss)
    | _, _, _ => none
  | _ => none

/-- Total seconds of the `timedelta(hours, minutes, seconds)` built from
the parsed triple. -/
def timeSeconds (t : ℤ × ℤ × ℤ) : ℤ :=
  3600 * t.1 + 60 * t.2.1 + t.2.2

/-- The timestamp-extraction loop of `analyze_igc_file` (lines 76–82):
strip each line, keep lines starting with `'B'`, parse the time, and
append it when `if time:` holds.  `time` is a `timedelta`, and a zero
`timedelta` is falsy in Python, so a record is kept exactly when it
parses and its total seconds are nonzero. -/
def extract_times (file : List (List Char)) : List ℚ :=
  file.filterMap (fun raw =>
    let line := pyStrip raw
    if line.head? = some 'B' then
      match parse_b_record_time line with
      | some t => if timeSeconds t ≠ 0 then some ((timeSeconds t : ℚ)) else none
      | none => none
    else none)

/-- Result tuple of `analyze_igc_file`.  `stddevSq` is the square of the
standard deviation the code computes (see the module docstring);
`interval_details` is the list of `(time1, time2, interval)` tuples. -/
structure AnalysisResult where
  is_fixed : Bool
  avg_interval : ℚ
  min_interval : ℚ
  max_interval : ℚ
  stddevSq : ℚ
  total_points : ℕ
  interval_details : List (ℚ × ℚ × ℚ)
deriving DecidableEq

/-- The plain interval values, `[item[2] for item in interval_details]`. -/
def AnalysisResult.intervals (r : AnalysisResult) : List ℚ :=
  r.interval_details.map (fun d => d.2.2)

/-- Interval derivation (lines 91–97): for each adjacent pair of
timestamps compute the difference and keep the tuple
`(times[i-1], times[i], diff)` exactly when `diff > 0`. -/
def intervalDetails (times : List ℚ) : List (ℚ × ℚ × ℚ) :=
  ((times.zip times.tail).map (fun p => (p.1, p.2, p.2 - p.1))).filter
    (fun d => 0 < d.2.2)

/-- Python `min` over a nonempty list (the empty case is unreachable in
the guarded code path; it returns the junk value 0). -/
def pyMin : List ℚ → ℚ
  | [] => 0
  | x :: xs => xs.foldl min x

/-- Python `max` over a nonempty list. -/
def pyMax : List ℚ → ℚ
  | [] => 0
  | x :: xs => xs.foldl max x

/-- Square of `statistics.stdev`, following the library's `_ss` helper:
with `c` the mean, it sums the squared deviations and subtracts the
rounding correction `(Σ (x - c))² / n`, then divides by `n - 1`.
(`statistics` does this exactly, via `Fraction`.) -/
def besselVar (l : List ℚ) : ℚ :=
  let c : ℚ := l.sum / l.length
  let total : ℚ := (l.map (fun x => (x - c) ^ 2)).sum
  let corr : ℚ := ((l.map (fun x => x - c)).sum) ^ 2 / l.length
  (total - corr) / ((l.length : ℚ) - 1)

/-- `analyze_igc_file` from the timestamp list onward (lines 87–116):
fewer than 2 timestamps, or no positive interval, give the zero result
with `is_fixed = False` and `total_points = len(times)`; otherwise the
summary statistics are computed, with `stddev = statistics.stdev` when
more than one interval exists (else 0), and
`is_fixed = (stddev < 1.0)`, i.e. `stddevSq < 1`. -/
def analyze_times (times : List ℚ) : AnalysisResult :=
  if times.length < 2 then
    ⟨false, 0, 0, 0, 0, times.length, []⟩
  else
    let details := intervalDetails times
    if details = [] then
      ⟨false, 0, 0, 0, 0, times.length, []⟩
    else
      let intervals := details.map (fun d => d.2.2)
      let sd2 : ℚ := if 1 < intervals.length then besselVar intervals else 0
      ⟨decide (sd2 < 1), intervals.sum / intervals.length,
        pyMin intervals, pyMax intervals, sd2, times.length, details⟩

/-- `analyze_igc_file` (lines 55–116): a file that cannot be read
(`except` branch) yields the all-zero result; otherwise the timestamps
are extracted and analyzed. -/
def analyze_igc_file (file : Option (List (List Char))) : AnalysisResult :=
  match file with
  | none => ⟨false, 0, 0, 0, 0, 0, []⟩
  | some lines => analyze_times (extract_times lines)

/-- The significant-variation loop body (lines 169–176): walk the
details after the first, comparing each interval against the previous
interval; flag `(time1, time2, prev_interval, interval)` when
`|interval - prev_interval| > min(prev_interval * 0.5, 5.0)`, and
advance `prev_interval` to the current interval in every step. -/
def sigVarAux (prev : ℚ) : List (ℚ × ℚ × ℚ) → List (ℚ × ℚ × ℚ × ℚ)
  | [] => []
  | d :: rest =>
    (if min (prev * (1 / 2)) 5 < |d.2.2 - prev| then [(d.1, d.2.1, prev, d.2.2)] else [])
      ++ sigVarAux d.2.2 rest

/-- `significant_variations` as built by `analyze_directory`:
`prev_interval` starts at `interval_details[0][2]` and the loop runs
over `interval_details[1:]`. -/
def significant_variations (details : List (ℚ × ℚ × ℚ)) : List (ℚ × ℚ × ℚ × ℚ) :=
  match details with
  | [] => []
  | d :: rest => sigVarAux d.2.2 rest

/-- The gating of significant-variation detection in `analyze_directory`
(lines 152–176): files with fewer than 2 points are skipped (`continue`),
detection runs only in the `VARIABLE` branch (`is_fixed` false) and only
when `len(interval_details) > 2`; the full list is built (the `[:5]`
slice is applied only when printing). -/
def reported_changes (r : AnalysisResult) : List (ℚ × ℚ × ℚ × ℚ) :=
  if r.total_points < 2 then []
  else if r.is_fixed then []
  else if 2 < r.interval_details.length then significant_variations r.interval_details
  else []

/-- The up-to-five changes actually printed (`significant_variations[:5]`). -/
def displayed_changes (r : AnalysisResult) : List (ℚ × ℚ × ℚ × ℚ) :=
  (reported_changes r).take 5

/-! Spec-side definitions, written from the specification's words, for
comparison with the embedded code. -/

/-- Spec wording of step 2's standard deviation: the sample standard
deviation, Bessel-corrected with divisor `n - 1` — here as its square,
the sample variance `Σ (x - mean)² / (n - 1)`. -/
def sampleVariance (l : List ℚ) : ℚ :=
  (l.map (fun x => (x - l.sum / l.length) ^ 2)).sum / ((l.length : ℚ) - 1)

/-- Spec wording of step 4: walk the interval sequence pairwise and flag
a change exactly when `|curr - prev| > min(prev * 0.5, 5.0)`, each
comparison being against the immediately preceding interval. -/
def pairFlags (details : List (ℚ × ℚ × ℚ)) : List (ℚ × ℚ × ℚ × ℚ) :=
  (details.zip details.tail).filterMap (fun q =>
    if min (q.1.2.2 * (1 / 2)) 5 < |q.2.2.2 - q.1.2.2| then
      some (q.2.1, q.2.2.1, q.1.2.2, q.2.2.2)
    else none)

/-- Modelled from the spec: the repository source under scrutiny has no
header-metadata extractor (§4.3 of the specification describes one, but
no such code exists in `IGCIntervalChecker.py`).  Static manufacturer
code → name table, per the spec's examples. -/
def manufacturer_table : List (String × String) :=
  [("FLA", "Flarm Technology GmbH"),
   ("LXN", "LX Navigation"),
   ("XCS", "XCSoar"),
   ("NAV", "Naviter")]

/-- Modelled from the spec: look a 3-letter manufacturer code up in the
static table; an unknown code passes through verbatim. -/
def lookup_manufacturer (code : String) : String :=
  match manufacturer_table.find? (fun p => p.1 = code) with
  | some p => p.2
  | none => code

/-- Modelled from the spec: from a manufacturer record (tag `A`, code at
offsets 1–3), extract the manufacturer name via the table. -/
def manufacturer_of_a_record (line : String) : String :=
  lookup_manufacturer (String.mk ((line.data.drop 1).take 3))

end IGC

/-! Helper lemmas. -/

namespace IGC

theorem sum_map_sub (l : List ℚ) (c : ℚ) :
    (l.map (fun x => x - c)).sum = l.sum - l.length * c := by
  induction l with
  | nil => simp
  | cons x xs ih =>
    simp only [List.map_cons, List.sum_cons, ih, List.length_cons, Nat.cast_add, Nat.cast_one]
    ring

theorem besselVar_eq_sampleVariance (l : List ℚ) (h : l ≠ []) :
    besselVar l = sampleVariance l := by
  have hl : l.length ≠ 0 := fun e => h (List.length_eq_zero.mp e)
  have hn : (l.length : ℚ) ≠ 0 := Nat.cast_ne_zero.mpr hl
  have key : (l.map (fun x => x - l.sum / l.length)).sum = 0 := by
    rw [sum_map_sub]
    field_simp
  simp only [besselVar, sampleVariance, key]
  norm_num

theorem foldl_min_le_init (l : List ℚ) : ∀ a : ℚ, l.foldl min a ≤ a := by
  induction l with
  | nil => intro a; simp
  | cons x xs ih =>
    intro a
    simp only [List.foldl_cons]
    exact le_trans (ih (min a x)) (min_le_left a x)

theorem foldl_min_le_mem (l : List ℚ) : ∀ a x, x ∈ l → l.foldl min a ≤ x := by
  induction l with
  | nil => intro a x hx; simp at hx
  | cons y ys ih =>
    intro a x hx
    simp only [List.foldl_cons]
    rcases List.mem_cons.mp hx with rfl | hm
    · exact le_trans (foldl_min_le_init ys _) (min_le_right _ _)
    · exact ih (min a y) x hm

theorem foldl_min_mem (l : List ℚ) : ∀ a : ℚ, l.foldl min a ∈ a :: l := by
  induction l with
  | nil => intro a; simp
  | cons y ys ih =>
    intro a
    simp only [List.foldl_cons]
    rcases List.mem_cons.mp (ih (min a y)) with he | hm
    · rw [he]
      rcases min_choice a y with h1 | h1 <;> rw [h1]
      · exact List.mem_cons_self _ _
      · exact List.mem_cons_of_mem _ (List.mem_cons_self _ _)
    · exact List.mem_cons_of_mem _ (List.mem_cons_of_mem _ hm)

theorem init_le_foldl_max (l : List ℚ) : ∀ a : ℚ, a ≤ l.foldl max a := by
  induction l with
  | nil => intro a; simp
  | cons x xs ih =>
    intro a
    simp only [List.foldl_cons]
    exact le_trans (le_max_left a x) (ih (max a x))

theorem mem_le_foldl_max (l : List ℚ) : ∀ a x, x ∈ l → x ≤ l.foldl max a := by
  induction l with
  | nil => intro a x hx; simp at hx
  | cons y ys ih =>
    intro a x hx
    simp only [List.foldl_cons]
    rcases List.mem_cons.mp hx with rfl | hm
    · exact le_trans (le_max_right _ _) (init_le_foldl_max ys _)
    · exact ih (max a y) x hm

theorem foldl_max_mem (l : List ℚ) : ∀ a : ℚ, l.foldl max a ∈ a :: l := by
  induction l with
  | nil => intro a; simp
  | cons y ys ih =>
    intro a
    simp only [List.foldl_cons]
    rcases List.mem_cons.mp (ih (max a y)) with he | hm
    · rw [he]
      rcases max_choice a y with h1 | h1 <;> rw [h1]
      · exact List.mem_cons_self _ _
      · exact List.mem_cons_of_mem _ (List.mem_cons_self _ _)
    · exact List.mem_cons_of_mem _ (List.mem_cons_of_mem _ hm)

theorem pyMin_le_mem (l : List ℚ) (x : ℚ) (hx : x ∈ l) : pyMin l ≤ x := by
  match l with
  | [] => simp at hx
  | y :: ys =>
    rcases List.mem_cons.mp hx with he | hm
    · exact he ▸ foldl_min_le_init ys y
    · exact foldl_min_le_mem ys y x hm

theorem pyMin_mem (l : List ℚ) (h : l ≠ []) : pyMin l ∈ l := by
  match l with
  | [] => exact absurd rfl h
  | y :: ys => exact foldl_min_mem ys y

theorem mem_le_pyMax (l : List ℚ) (x : ℚ) (hx : x ∈ l) : x ≤ pyMax l := by
  match l with
  | [] => simp at hx
  | y :: ys =>
    rcases List.mem_cons.mp hx with he | hm
    · exact he ▸ init_le_foldl_max ys y
    · exact mem_le_foldl_max ys y x hm

theorem pyMax_mem (l : List ℚ) (h : l ≠ []) : pyMax l ∈ l := by
  match l with
  | [] => exact absurd rfl h
  | y :: ys => exact foldl_max_mem ys y

theorem zip_tail_length (times : List ℚ) :
    (times.zip times.tail).length = times.length - 1 := by
  simp only [List.length_zip, List.length_tail]
  omega

theorem length_filter_partition (l : List ℚ) (p : ℚ → Bool) :
    (l.filter p).length + (l.filter (fun x => !p x)).length = l.length := by
  induction l with
  | nil => rfl
  | cons x xs ih =>
    by_cases hx : p x = true <;> simp [List.filter_cons, hx] <;> omega

theorem details_map_eq (zl : List (ℚ × ℚ)) :
    ((zl.map (fun p => (p.1, p.2, p.2 - p.1))).filter (fun d => 0 < d.2.2)).map
        (fun d => d.2.2)
      = (zl.map (fun p => p.2 - p.1)).filter (fun d => 0 < d) := by
  induction zl with
  | nil => rfl
  | cons q qs ih =>
    by_cases hq : (0 : ℚ) < q.2 - q.1 <;> simp [List.filter_cons, hq, ih]

theorem sigVarAux_eq_pairFlags (rest : List (ℚ × ℚ × ℚ)) :
    ∀ d : ℚ × ℚ × ℚ, sigVarAux d.2.2 rest = pairFlags (d :: rest) := by
  induction rest with
  | nil => intro d; rfl
  | cons e rest ih =>
    intro d
    have step : pairFlags (d :: e :: rest)
        = (if min (d.2.2 * (1 / 2)) 5 < |e.2.2 - d.2.2|
            then [(e.1, e.2.1, d.2.2, e.2.2)] else []) ++ pairFlags (e :: rest) := by
      simp only [pairFlags, List.tail_cons, List.zip_cons_cons, List.filterMap_cons]
      by_cases hc : min (d.2.2 * (1 / 2)) 5 < |e.2.2 - d.2.2|
      · rw [if_pos hc, if_pos hc]
        rfl
      · rw [if_neg hc, if_neg hc]
        rfl
    rw [show sigVarAux d.2.2 (e :: rest)
          = (if min (d.2.2 * (1 / 2)) 5 < |e.2.2 - d.2.2|
              then [(e.1, e.2.1, d.2.2, e.2.2)] else []) ++ sigVarAux e.2.2 rest from rfl,
      ih e, step]

theorem analyze_times_short (times : List ℚ) (h : times.length < 2) :
    analyze_times times = ⟨false, 0, 0, 0, 0, times.length, []⟩ := by
  simp [analyze_times, h]

theorem analyze_times_nodetails (times : List ℚ) (h2 : ¬ times.length < 2)
    (hd : intervalDetails times = []) :
    analyze_times times = ⟨false, 0, 0, 0, 0, times.length, []⟩ := by
  simp [analyze_times, h2, hd]

theorem analyze_times_main (times : List ℚ) (h2 : ¬ times.length < 2)
    (hd : intervalDetails times ≠ []) :
    analyze_times times =
      ⟨decide ((if 1 < ((intervalDetails times).map (fun d => d.2.2)).length then
            besselVar ((intervalDetails times).map (fun d => d.2.2)) else 0) < 1),
        ((intervalDetails times).map (fun d => d.2.2)).sum /
          ((intervalDetails times).map (fun d => d.2.2)).length,
        pyMin ((intervalDetails times).map (fun d => d.2.2)),
        pyMax ((intervalDetails times).map (fun d => d.2.2)),
        (if 1 < ((intervalDetails times).map (fun d => d.2.2)).length then
            besselVar ((intervalDetails times).map (fun d => d.2.2)) else 0),
        times.length, intervalDetails times⟩ := by
  simp [analyze_times, h2, hd]

end IGC

namespace IGC

theorem analyze_times_total_points (times : List ℚ) :
    (analyze_times times).total_points = times.length := by
  by_cases h2 : times.length < 2
  · rw [analyze_times_short times h2]
  · by_cases hd : intervalDetails times = []
    · rw [analyze_times_nodetails times h2 hd]
    · rw [analyze_times_main times h2 hd]

theorem analyze_times_intervals (times : List ℚ) (h2 : ¬ times.length < 2)
    (hd : intervalDetails times ≠ []) :
    (analyze_times times).intervals = (intervalDetails times).map (fun d => d.2.2) := by
  rw [analyze_times_main times h2 hd]
  rfl

theorem analyze_times_details_eq (times : List ℚ) (h2 : ¬ times.length < 2)
    (hd : intervalDetails times ≠ []) :
    (analyze_times times).interval_details = intervalDetails times := by
  rw [analyze_times_main times h2 hd]

theorem analyze_times_stddevSq_eq (times : List ℚ) (h2 : ¬ times.length < 2)
    (hd : intervalDetails times ≠ []) :
    (analyze_times times).stddevSq
      = if 1 < ((intervalDetails times).map (fun d => d.2.2)).length
        then besselVar ((intervalDetails times).map (fun d => d.2.2)) else 0 := by
  rw [analyze_times_main times h2 hd]

theorem analyze_times_is_fixed_eq (times : List ℚ) (h2 : ¬ times.length < 2)
    (hd : intervalDetails times ≠ []) :
    (analyze_times times).is_fixed = decide ((analyze_times times).stddevSq < 1) := by
  rw [analyze_times_main times h2 hd]

theorem analyze_times_avg_eq (times : List ℚ) (h2 : ¬ times.length < 2)
    (hd : intervalDetails times ≠ []) :
    (analyze_times times).avg_interval
      = (analyze_times times).intervals.sum / ((analyze_times times).intervals.length : ℚ) := by
  rw [analyze_times_main times h2 hd]
  rfl

theorem analyze_times_min_eq (times : List ℚ) (h2 : ¬ times.length < 2)
    (hd : intervalDetails times ≠ []) :
    (analyze_times times).min_interval = pyMin (analyze_times times).intervals := by
  rw [analyze_times_main times h2 hd]
  rfl

theorem analyze_times_max_eq (times : List ℚ) (h2 : ¬ times.length < 2)
    (hd : intervalDetails times ≠ []) :
    (analyze_times times).max_interval = pyMax (analyze_times times).intervals := by
  rw [analyze_times_main times h2 hd]
  rfl

theorem length_filter_pos_nonpos (l : List ℚ) :
    (l.filter (fun d => 0 < d)).length + (l.filter (fun d => d ≤ 0)).length = l.length := by
  induction l with
  | nil => rfl
  | cons x xs ih =>
    by_cases hx : (0 : ℚ) < x
    · simp only [List.filter_cons, decide_eq_true_eq, hx, if_pos, not_le.mpr hx, if_neg,
        List.length_cons, decide_eq_true_eq]
      simp [hx, not_le.mpr hx]
      omega
    · simp [List.filter_cons, hx, not_lt.mp hx]
      omega

/-- C1: on the statistics path (at least one retained interval, hence at
least 2 timestamps), the reported standard deviation is the
Bessel-corrected sample standard deviation of the retained intervals
when at least 2 intervals exist, it is 0 when only one interval exists,
and `is_fixed` holds iff the standard deviation is strictly below 1.0 s.
Stated on the square `stddevSq` (the sample variance), which determines
the standard deviation and its comparison with 1 exactly. -/
theorem stddev_bessel_and_fixed_threshold (times : List ℚ) :
    (2 ≤ (analyze_times times).intervals.length →
      (analyze_times times).stddevSq = sampleVariance (analyze_times times).intervals
        ∧ ((analyze_times times).is_fixed = true ↔ (analyze_times times).stddevSq < 1))
    ∧ ((analyze_times times).intervals.length = 1 →
      (analyze_times times).stddevSq = 0
        ∧ ((analyze_times times).is_fixed = true ↔ (analyze_times times).stddevSq < 1)) := by
  by_cases h2 : times.length < 2
  · rw [analyze_times_short times h2]
    constructor <;> intro h <;> simp [AnalysisResult.intervals] at h
  · by_cases hd : intervalDetails times = []
    · rw [analyze_times_nodetails times h2 hd]
      constructor <;> intro h <;> simp [AnalysisResult.intervals] at h
    · have hiv := analyze_times_intervals times h2 hd
      have hfix := analyze_times_is_fixed_eq times h2 hd
      have hsd := analyze_times_stddevSq_eq times h2 hd
      constructor
      · intro hlen
        rw [hiv, List.length_map] at hlen
        have h1 : 1 < ((intervalDetails times).map (fun d => d.2.2)).length := by
          rw [List.length_map]; omega
        have hne : ((intervalDetails times).map (fun d => d.2.2)) ≠ [] := by
          intro e
          rw [e] at h1
          simp at h1
        refine ⟨?_, ?_⟩
        · rw [hsd, if_pos h1, hiv, besselVar_eq_sampleVariance _ hne]
        · rw [hfix]
          simp
      · intro hlen
        rw [hiv, List.length_map] at hlen
        have h1 : ¬ 1 < ((intervalDetails times).map (fun d => d.2.2)).length := by
          rw [List.length_map]; omega
        refine ⟨by rw [hsd, if_neg h1], ?_⟩
        rw [hfix]
        simp

/-- C1 witness: the theorem applied to the series `[10, 15, 25]`
(two retained intervals) and `[10, 15]` (one retained interval). -/
theorem stddev_bessel_and_fixed_threshold_witness :
    ((analyze_times [(10 : ℚ), 15, 25]).stddevSq
        = sampleVariance (analyze_times [(10 : ℚ), 15, 25]).intervals
      ∧ ((analyze_times [(10 : ℚ), 15, 25]).is_fixed = true
          ↔ (analyze_times [(10 : ℚ), 15, 25]).stddevSq < 1))
    ∧ ((analyze_times [(10 : ℚ), 15]).stddevSq = 0
      ∧ ((analyze_times [(10 : ℚ), 15]).is_fixed = true
          ↔ (analyze_times [(10 : ℚ), 15]).stddevSq < 1)) := by
  constructor
  · exact (stddev_bessel_and_fixed_threshold [10, 15, 25]).1
      (by norm_num [analyze_times, intervalDetails, AnalysisResult.intervals, List.cons_ne_nil])
  · exact (stddev_bessel_and_fixed_threshold [10, 15]).2
      (by norm_num [analyze_times, intervalDetails, AnalysisResult.intervals, List.cons_ne_nil])

/-- C2: significant-change detection runs exactly when `is_fixed` is
false and more than 2 intervals exist, and then the produced list is the
complete pairwise walk of the interval sequence: a change is flagged
exactly when `|curr - prev| > min(prev * 0.5, 5.0)`, the baseline
advancing to the current interval after every comparison. -/
theorem significant_change_characterization (times : List ℚ) :
    reported_changes (analyze_times times)
      = if (analyze_times times).is_fixed = false
            ∧ 2 < (analyze_times times).interval_details.length
        then pairFlags (analyze_times times).interval_details
        else [] := by
  by_cases h2 : times.length < 2
  · rw [analyze_times_short times h2]
    simp [reported_changes, h2]
  · by_cases hd : intervalDetails times = []
    · rw [analyze_times_nodetails times h2 hd]
      simp [reported_changes, h2]
    · have hdet := analyze_times_details_eq times h2 hd
      have hpts := analyze_times_total_points times
      simp only [reported_changes, hpts, if_neg h2, hdet]
      cases hb : (analyze_times times).is_fixed with
      | true => simp [hb]
      | false =>
        simp only [Bool.false_eq_true, if_false, true_and]
        by_cases hl : 2 < (intervalDetails times).length
        · rw [if_pos hl, if_pos hl]
          obtain ⟨d, rest, he⟩ := List.exists_cons_of_ne_nil hd
          rw [he]
          exact sigVarAux_eq_pairFlags rest d
        · rw [if_neg hl, if_neg hl]

/-- C3: a delta between adjacent timestamps is retained as an interval
exactly when it is strictly positive, and the number of retained
intervals is `len(times) - 1 - (number of non-positive deltas)`. -/
theorem interval_retention_policy (times : List ℚ) :
    (intervalDetails times).map (fun d => d.2.2)
        = ((times.zip times.tail).map (fun p => p.2 - p.1)).filter (fun d => 0 < d)
    ∧ (intervalDetails times).length
        = times.length - 1
            - (((times.zip times.tail).map (fun p => p.2 - p.1)).filter
                (fun d => d ≤ 0)).length := by
  have h1 := details_map_eq (times.zip times.tail)
  refine ⟨h1, ?_⟩
  have hlen : (intervalDetails times).length
      = (((times.zip times.tail).map (fun p => p.2 - p.1)).filter
          (fun d => decide (0 < d))).length := by
    rw [← h1, List.length_map]
    rfl
  have hL : ((times.zip times.tail).map (fun p => p.2 - p.1)).length = times.length - 1 := by
    rw [List.length_map, zip_tail_length]
  have hpart := length_filter_pos_nonpos ((times.zip times.tail).map (fun p => p.2 - p.1))
  omega

end IGC

namespace IGC

/-- C4 is violated by the code (a code bug): `B000000A` is a valid
position record at 00:00:00, but `timedelta(0)` is falsy so the
`if time:` guard silently drops it — a file with two valid B records
yields only one timestamp. -/
theorem midnight_b_record_dropped :
    parse_b_record_time ("B000000A".data) = some (0, 0, 0)
    ∧ extract_times [("B000000A".data), ("B000005A".data)] = [5] := by
  decide

/-- C5: with at least 2 timestamps and at least 1 retained interval, the
average is `sum(intervals)/len(intervals)`, the minimum and maximum are
extrema of the retained intervals (members bounding every interval), and
the reported count is the number of timestamps, not of intervals. -/
theorem summary_statistics_correct (times : List ℚ) (h2 : 2 ≤ times.length)
    (h1 : 1 ≤ (intervalDetails times).length) :
    (analyze_times times).avg_interval
        = (analyze_times times).intervals.sum / ((analyze_times times).intervals.length : ℚ)
    ∧ (analyze_times times).min_interval ∈ (analyze_times times).intervals
    ∧ (analyze_times times).max_interval ∈ (analyze_times times).intervals
    ∧ (∀ x ∈ (analyze_times times).intervals,
        (analyze_times times).min_interval ≤ x ∧ x ≤ (analyze_times times).max_interval)
    ∧ (analyze_times times).total_points = times.length := by
  have h2n : ¬ times.length < 2 := by omega
  have hd : intervalDetails times ≠ [] := by
    intro e
    rw [e] at h1
    simp at h1
  have hiv := analyze_times_intervals times h2n hd
  have hivne : (analyze_times times).intervals ≠ [] := by
    rw [hiv]
    intro e
    have he := congrArg List.length e
    rw [List.length_map] at he
    simp at he
    rw [he] at h1
    simp at h1
  refine ⟨analyze_times_avg_eq times h2n hd, ?_, ?_, ?_, analyze_times_total_points times⟩
  · rw [analyze_times_min_eq times h2n hd]
    exact pyMin_mem _ hivne
  · rw [analyze_times_max_eq times h2n hd]
    exact pyMax_mem _ hivne
  · intro x hx
    constructor
    · rw [analyze_times_min_eq times h2n hd]
      exact pyMin_le_mem _ x hx
    · rw [analyze_times_max_eq times h2n hd]
      exact mem_le_pyMax _ x hx

/-- C5 witness: the theorem applied to the series `[10, 15, 25]`
(intervals `[5, 10]`), instantiating the bound at the member 5. -/
theorem summary_statistics_correct_witness :
    (analyze_times [(10 : ℚ), 15, 25]).avg_interval
        = (analyze_times [(10 : ℚ), 15, 25]).intervals.sum
            / ((analyze_times [(10 : ℚ), 15, 25]).intervals.length : ℚ)
    ∧ (analyze_times [(10 : ℚ), 15, 25]).min_interval ≤ 5
    ∧ 5 ≤ (analyze_times [(10 : ℚ), 15, 25]).max_interval
    ∧ (analyze_times [(10 : ℚ), 15, 25]).total_points = 3 := by
  have h := summary_statistics_correct [10, 15, 25] (by norm_num)
    (by norm_num [intervalDetails])
  have hm : (5 : ℚ) ∈ (analyze_times [(10 : ℚ), 15, 25]).intervals := by
    norm_num [analyze_times, intervalDetails, AnalysisResult.intervals, List.cons_ne_nil]
  exact ⟨h.1, (h.2.2.2.1 5 hm).1, (h.2.2.2.1 5 hm).2, h.2.2.2.2⟩

/-- C6: on a series with consecutive deltas `[5, 5, 5, 20, 5, 5]` the
engine reports average 7.5, variance above 1 (hence standard deviation
above 1.0 s and `is_fixed` false), and flags exactly the transition into
and the transition out of the 20-second interval. -/
theorem spike_series_two_flags :
    (analyze_times [(10 : ℚ), 15, 20, 25, 45, 50, 55]).intervals = [5, 5, 5, 20, 5, 5]
    ∧ (analyze_times [(10 : ℚ), 15, 20, 25, 45, 50, 55]).avg_interval = 15 / 2
    ∧ 1 < (analyze_times [(10 : ℚ), 15, 20, 25, 45, 50, 55]).stddevSq
    ∧ (analyze_times [(10 : ℚ), 15, 20, 25, 45, 50, 55]).is_fixed = false
    ∧ reported_changes (analyze_times [(10 : ℚ), 15, 20, 25, 45, 50, 55])
        = [(25, 45, 5, 20), (45, 50, 20, 5)] := by
  norm_num [analyze_times, intervalDetails, AnalysisResult.intervals, besselVar,
    pyMin, pyMax, reported_changes, significant_variations, sigVarAux, lt_abs,
    List.cons_ne_nil]

/-- C7: an unreadable file is reported as the zero result (no exception
escapes, `total_points = 0`, empty details), and any file with fewer
than 2 extracted timestamps yields the insufficient-data result with
`total_points` the literal count of valid records found. -/
theorem unreadable_or_insufficient :
    analyze_igc_file none = ⟨false, 0, 0, 0, 0, 0, []⟩
    ∧ ∀ lines : List (List Char), (extract_times lines).length < 2 →
        analyze_igc_file (some lines)
          = ⟨false, 0, 0, 0, 0, (extract_times lines).length, []⟩ := by
  refine ⟨rfl, ?_⟩
  intro lines h
  show analyze_times (extract_times lines) = _
  exact analyze_times_short _ h

/-- C7 witness: a file with a single valid B record. -/
theorem unreadable_or_insufficient_witness :
    analyze_igc_file (some [("B010203AAAA".data)]) = ⟨false, 0, 0, 0, 0, 1, []⟩ := by
  have h := unreadable_or_insufficient.2 [("B010203AAAA".data)] (by decide)
  have e : (extract_times [("B010203AAAA".data)]).length = 1 := by decide
  rw [e] at h
  exact h

theorem pyInt2_bounds (a b : Char) (v : ℤ) (h : pyInt2 a b = some v) :
    -9 ≤ v ∧ v ≤ 99 := by
  have hdig : ∀ c : Char, isDigitChar c = true → 0 ≤ digitVal c ∧ digitVal c ≤ 9 := by
    intro c hc
    simp only [isDigitChar, Bool.and_eq_true, decide_eq_true_eq] at hc
    unfold digitVal
    omega
  unfold pyInt2 at h
  split_ifs at h with h1 h2 h3 h4 h5
  · rw [Bool.and_eq_true] at h1
    obtain ⟨ha1, ha2⟩ := hdig a h1.1
    obtain ⟨hb1, hb2⟩ := hdig b h1.2
    injection h with hv
    omega
  · rw [Bool.and_eq_true] at h2
    obtain ⟨hb1, hb2⟩ := hdig b h2.2
    injection h with hv
    omega
  · rw [Bool.and_eq_true] at h3
    obtain ⟨hb1, hb2⟩ := hdig b h3.2
    injection h with hv
    omega
  · rw [Bool.and_eq_true] at h4
    obtain ⟨hb1, hb2⟩ := hdig b h4.2
    injection h with hv
    omega
  · rw [Bool.and_eq_true] at h5
    obtain ⟨ha1, ha2⟩ := hdig a h5.1
    injection h with hv
    omega

/-- C8 is false on the code: `B999999` parses with hour 99 (no range
validation exists) and the resulting timestamp is yielded to the
statistics engine. -/
theorem timestamp_invariant_counterexample :
    extract_times [("B999999".data)] = [362439]
    ∧ parse_b_record_time ("B999999".data) = some (99, 99, 99)
    ∧ ¬ ((99 : ℤ) ≤ 23) := by
  decide

/-- C8 (amended): the extractor performs no time-of-day range check; the
only invariant is the one Python `int` on a two-character slice gives,
namely every parsed component lies between -9 and 99. -/
theorem parsed_time_components_bounded (line : List Char) (hh mm ss : ℤ)
    (h : parse_b_record_time line = some (hh, mm, ss)) :
    (-9 ≤ hh ∧ hh ≤ 99) ∧ (-9 ≤ mm ∧ mm ≤ 99) ∧ (-9 ≤ ss ∧ ss ≤ 99) := by
  unfold parse_b_record_time at h
  split at h
  · split at h
    · rename_i c0 c1 c2 c3 c4 c5 c6 t a1 a2 a3 heq1 heq2 heq3
      simp only [Option.some.injEq, Prod.mk.injEq] at h
      obtain ⟨e1, e2, e3⟩ := h
      subst e1
      subst e2
      subst e3
      exact ⟨pyInt2_bounds _ _ _ heq1, pyInt2_bounds _ _ _ heq2, pyInt2_bounds _ _ _ heq3⟩
    · simp at h
  · simp at h

/-- C8 amended witness: `B123456` parses to components 12, 34, 56, all
within the proved bounds. -/
theorem parsed_time_components_bounded_witness :
    ((-9 : ℤ) ≤ 12 ∧ (12 : ℤ) ≤ 99) ∧ ((-9 : ℤ) ≤ 34 ∧ (34 : ℤ) ≤ 99)
      ∧ ((-9 : ℤ) ≤ 56 ∧ (56 : ℤ) ≤ 99) :=
  parsed_time_components_bounded ("B123456".data) 12 34 56 (by decide)

/-- C9 (modelled from the spec — the repository has no header
extractor): the manufacturer code is mapped through the static table,
`FLA` giving `Flarm Technology GmbH` and the unknown code `XXX` passing
through verbatim. -/
theorem manufacturer_lookup_spec :
    manufacturer_of_a_record "AFLAXYZ" = "Flarm Technology GmbH"
    ∧ manufacturer_of_a_record "AXXXABC" = "XXX"
    ∧ lookup_manufacturer "FLA" = "Flarm Technology GmbH"
    ∧ lookup_manufacturer "XXX" = "XXX" := by
  decide

/-- C10: with at least 2 timestamps but no strictly positive delta, the
analysis returns the zero result: all statistics 0, `is_fixed` false,
empty interval list, and `total_points` the number of timestamps. -/
theorem all_nonpositive_deltas_zero_result (times : List ℚ) (h2 : 2 ≤ times.length)
    (hnp : ∀ p ∈ times.zip times.tail, p.2 - p.1 ≤ 0) :
    analyze_times times = ⟨false, 0, 0, 0, 0, times.length, []⟩ := by
  have h2n : ¬ times.length < 2 := by omega
  have hd : intervalDetails times = [] := by
    apply List.filter_eq_nil_iff.mpr
    intro d hdm
    simp only [List.mem_map] at hdm
    obtain ⟨p, hp, rfl⟩ := hdm
    simp only [decide_eq_true_eq]
    exact not_lt.mpr (hnp p hp)
  exact analyze_times_nodetails times h2n hd

/-- C10 witness: the equal-then-decreasing series `[5, 5, 3]`. -/
theorem all_nonpositive_deltas_zero_result_witness :
    analyze_times [(5 : ℚ), 5, 3] = ⟨false, 0, 0, 0, 0, 3, []⟩ :=
  all_nonpositive_deltas_zero_result [5, 5, 3] (by norm_num)
    (by norm_num [List.tail_cons, List.zip_cons_cons, List.zip_nil_right, List.mem_cons])

end IGC
